import Mathlib

/-!
Shallow embedding of the battleship rules engine (src/battleship/ship.py and
src/battleship/player.py) together with proofs about the behaviour of its
operations.  Coordinates are modelled as pairs of integers, Python sets as
Finset, Python lists as List, and fallible operations (those that can raise)
as Option-valued functions, where none models an uncaught exception.
Randomness is made explicit: uses of random.randint / random.random /
random.choice become parameters (a stream of draws, or an index into a
candidate list), and the theorems quantify over those parameters.
-/

set_option maxRecDepth 10000

namespace Battleship

/-- A board cell, an (x, y) pair of integers as in ship.py and player.py. -/
abbrev Cell := ℤ × ℤ

/-- Result of Ship.length in ship.py.  The Python method either returns the
numeric length, or executes the statement return ValueError, which hands the
exception class object back to the caller as an ordinary return value; it
never raises.  pyValueError models that returned class object. -/
inductive LengthResult where
  | ok (n : ℤ)
  | pyValueError
deriving DecidableEq

/-- State of a Ship from ship.py: the normalised bounding corners
(x_start ≤ x_end and y_start ≤ y_end after __init__), the list of occupied
cells computed by get_cells (Python stores set(occupied_coords); the list
produced by get_cells has the same elements), and the set of damaged cells. -/
structure Ship where
  x_start : ℤ
  y_start : ℤ
  x_end : ℤ
  y_end : ℤ
  cellsList : List Cell
  damaged_cells : Finset Cell
deriving DecidableEq

/-- Ship.is_vertical from ship.py. -/
def Ship.is_vertical (s : Ship) : Bool := decide (s.x_start = s.x_end)

/-- Ship.is_horizontal from ship.py. -/
def Ship.is_horizontal (s : Ship) : Bool := decide (s.y_start = s.y_end)

/-- Python range(lo, hi + 1) as a list of integers. -/
def intRange (lo hi : ℤ) : List ℤ :=
  (List.range (hi + 1 - lo).toNat).map (fun (i : ℕ) => lo + (i : ℤ))

/-- Ship.get_cells from ship.py: if the ship is vertical, the column of cells
from y_start to y_end, otherwise the row of cells from x_start to x_end. -/
def Ship.get_cells (s : Ship) : List Cell :=
  if s.is_vertical then (intRange s.y_start s.y_end).map (fun y => (s.x_start, y))
  else (intRange s.x_start s.x_end).map (fun x => (x, s.y_start))

/-- The body of Ship.__init__ from ship.py: normalise the two corners with
min and max, compute the occupied cells, start with no damage. -/
def shipOfCorners (start e : Cell) : Ship :=
  let base : Ship :=
    { x_start := min start.1 e.1
      y_start := min start.2 e.2
      x_end := max start.1 e.1
      y_end := max start.2 e.2
      cellsList := []
      damaged_cells := ∅ }
  { base with cellsList := base.get_cells }

/-- Ship.__init__ from ship.py including the should_validate check: none
models the ValueError raised when validation is requested and the corners
describe neither a horizontal nor a vertical line. -/
def shipInit (start e : Cell) (should_validate : Bool) : Option Ship :=
  let sh := shipOfCorners start e
  if should_validate && !sh.is_horizontal && !sh.is_vertical then none
  else some sh

/-- Python max over a list of integers; ship.py only applies it to the
nonempty coordinate lists of a ship, so the value on [] is irrelevant. -/
def listMax : List ℤ → ℤ
  | [] => 0
  | a :: t => t.foldl max a

/-- Python min over a list of integers, same convention as listMax. -/
def listMin : List ℤ → ℤ
  | [] => 0
  | a :: t => t.foldl min a

/-- Ship.length from ship.py: spans are recomputed from the stored cell set,
and a span above 5 makes the method return the ValueError class object. -/
def Ship.length (s : Ship) : LengthResult :=
  let x_coords := s.cellsList.map Prod.fst
  let y_coords := s.cellsList.map Prod.snd
  let x_domain := listMax x_coords - listMin x_coords + 1
  let y_domain := listMax y_coords - listMin y_coords + 1
  let l := max x_domain y_domain
  if 5 < l then .pyValueError else .ok l

/-- Ship.is_occupying_cell from ship.py. -/
def Ship.is_occupying_cell (s : Ship) (cell : Cell) : Bool :=
  decide (cell ∈ s.cellsList)

/-- Ship.receive_damage from ship.py: the returned Bool is the hit flag, the
returned Ship is the mutated object. -/
def Ship.receive_damage (s : Ship) (cell : Cell) : Bool × Ship :=
  if cell ∈ s.cellsList then
    (true, { s with damaged_cells := insert cell s.damaged_cells })
  else (false, s)

/-- Ship.count_damaged_cells from ship.py. -/
def Ship.count_damaged_cells (s : Ship) : ℕ := s.damaged_cells.card

/-- Ship.has_sunk from ship.py: self.length() == self.count_damaged_cells().
When length() returns the ValueError class, the Python comparison of that
class object with an integer is False, so has_sunk returns False. -/
def Ship.has_sunk (s : Ship) : Bool :=
  match s.length with
  | .ok n => decide (n = (s.count_damaged_cells : ℤ))
  | .pyValueError => false

/-- Ship.is_near_cell from ship.py: the cell lies in the bounding box of the
ship expanded by one in every direction. -/
def Ship.is_near_cell (s : Ship) (cell : Cell) : Bool :=
  decide (s.x_start - 1 ≤ cell.1 ∧ cell.1 ≤ s.x_end + 1 ∧
          s.y_start - 1 ≤ cell.2 ∧ cell.2 ≤ s.y_end + 1)

/-- Ship.is_near_ship from ship.py: some cell of the other ship is near. -/
def Ship.is_near_ship (s other : Ship) : Bool :=
  other.cellsList.any (fun c => s.is_near_cell c)

/-- Damage a ship at every one of its occupied cells in turn, i.e. call
receive_damage on each occupied cell. -/
def damageAll (sh : Ship) : Ship :=
  sh.cellsList.foldl (fun s c => (s.receive_damage c).2) sh

/-- One bundle of random values consumed by ShipFactory.build_ship: the
random.randint draws for x_start and y_start, and the outcome of the
comparison random.random() < 0.5 choosing the horizontal direction. -/
structure Draw where
  x : ℤ
  y : ℤ
  horiz : Bool
deriving DecidableEq

/-- ShipFactory.build_ship from ship.py, for a given board size, ship length
and bundle of random draws.  Modelled from the spec in one respect:
convert.py (CellConverter) is not under src/, and the spec states that
format is deterministic, total over valid cells and the inverse of parse, so
the to_str followed by from_str round trip taken by build_ship and
create_ship_from_str is the identity on the corner cells and is omitted.
The validating Ship constructor always succeeds here because the two corners
produced share an axis. -/
def build_ship (bs : ℤ × ℤ) (len : ℤ) (d : Draw) : Ship :=
  if d.horiz then
    let xe0 := d.x + 1 - len
    let xe := if xe0 < 1 then d.x - 1 + len else xe0
    shipOfCorners (d.x, d.y) (xe, d.y)
  else
    let ye0 := d.y - 1 + len
    let ye := if bs.2 < ye0 then d.y + 1 - len else ye0
    shipOfCorners (d.x, d.y) (d.x, ye)

/-- The while loop of ShipFactory.generate_ships: the body runs for
i = 1, ..., 999; in each iteration, if the candidate is near some already
accepted ship it is rebuilt from the next random draws (f is the stream of
draws, the counter indexes it), otherwise nothing happens. -/
def retryLoop (bs : ℤ × ℤ) (len : ℤ) (ships : List Ship) (f : ℕ → Draw) :
    Ship → ℕ → ℕ → Ship × ℕ
  | ship, ctr, 0 => (ship, ctr)
  | ship, ctr, n + 1 =>
    if ships.any (fun other => ship.is_near_ship other) then
      retryLoop bs len ships f (build_ship bs len (f ctr)) (ctr + 1) n
    else
      retryLoop bs len ships f ship ctr n

/-- One iteration of the inner for loop of generate_ships: build a candidate
ship of the given length; the first ship is appended unchecked, later ships
go through the bounded retry loop and the final candidate is appended even
when the 999 iterations did not produce a clear one. -/
def generateStep (bs : ℤ × ℤ) (f : ℕ → Draw) (len : ℤ) (acc : List Ship × ℕ) :
    List Ship × ℕ :=
  let ship := build_ship bs len (f acc.2)
  let ctr := acc.2 + 1
  if acc.1.isEmpty then (acc.1 ++ [ship], ctr)
  else
    let r := retryLoop bs len acc.1 f ship ctr 999
    (acc.1 ++ [r.1], r.2)

/-- The inner for loop of generate_ships: build the required count of ships
of one length. -/
def buildCount (bs : ℤ × ℤ) (f : ℕ → Draw) (len : ℤ) :
    ℕ → List Ship × ℕ → List Ship × ℕ
  | 0, acc => acc
  | n + 1, acc => buildCount bs f len n (generateStep bs f len acc)

/-- The default ships_per_length configuration of ShipFactory, one ship of
each length 1 to 5, in the dict insertion order the Python code iterates. -/
def defaultShipsPerLength : List (ℤ × ℕ) := [(1, 1), (2, 1), (3, 1), (4, 1), (5, 1)]

/-- ShipFactory.generate_ships from ship.py, driven by an explicit stream f
of random draws. -/
def generate_ships (bs : ℤ × ℤ) (config : List (ℤ × ℕ)) (f : ℕ → Draw) : List Ship :=
  (config.foldl (fun acc p => buildCount bs f p.1 p.2 acc) ([], 0)).1

/-- A draw stream whose randint results stay within the given board, the
guarantee random.randint(1, width) and random.randint(1, height) give the
Python code. -/
def validStream (bs : ℤ × ℤ) (f : ℕ → Draw) : Prop :=
  ∀ n, 1 ≤ (f n).x ∧ (f n).x ≤ bs.1 ∧ 1 ≤ (f n).y ∧ (f n).y ≤ bs.2

/-- Width of the board owned by RandomPlayer and AutomaticPlayer.  Modelled
from the spec: board.py is not under src/; both players always construct the
default Board, whose size the spec fixes at 10 by 10. -/
def boardWidth : ℤ := 10

/-- Height of the default board, see boardWidth. -/
def boardHeight : ℤ := 10

/-- State of a RandomPlayer from player.py: the set of cells already
targeted. -/
structure RandomState where
  tracker : Finset Cell
deriving DecidableEq

/-- The while loop of generate_random_target (shared by RandomPlayer and
AutomaticPlayer): keep drawing random cells until one outside the tracker
appears.  The draws list is the stream of get_random_coordinates results;
none models the loop still running when the listed draws are exhausted. -/
def generateRandomTarget (tracker : Finset Cell) : List Cell → Option Cell
  | [] => none
  | d :: ds => if d ∈ tracker then generateRandomTarget tracker ds else some d

/-- RandomPlayer.select_target from player.py: draw an untracked random cell,
add it to the tracker and return it. -/
def randomSelectTarget (s : RandomState) (draws : List Cell) :
    Option (Cell × RandomState) :=
  match generateRandomTarget s.tracker draws with
  | none => none
  | some c => some (c, ⟨insert c s.tracker⟩)

/-- State of an AutomaticPlayer from player.py. -/
structure AutoState where
  tracker : Finset Cell
  moves : List Cell
  attack_successful : Bool
  ship_being_attacked : List Cell
deriving DecidableEq

/-- The AutomaticPlayer state right after __init__. -/
def initAutoState : AutoState := ⟨∅, [], false, []⟩

/-- AutomaticPlayer.is_valid_target from player.py.  The code reads
x = cell[1] and y = cell[0] and checks x against the board width and y
against the board height; with the 10 by 10 board this checks both
coordinates against 1..10. -/
def is_valid_target (cell : Cell) : Bool :=
  decide (1 ≤ cell.2 ∧ cell.2 ≤ boardWidth ∧ 1 ≤ cell.1 ∧ cell.1 ≤ boardHeight)

/-- AutomaticPlayer.cell_unvisited from player.py. -/
def cell_unvisited (s : AutoState) (cell : Cell) : Bool :=
  decide (cell ∉ s.tracker)

/-- AutomaticPlayer.get_adjacent_cells from player.py, including its
fallbacks: a direction whose step would leave the board contributes the cell
itself instead of a neighbour, and the candidates are then filtered to the
unvisited ones and then to the in-bounds ones. -/
def get_adjacent_cells (s : AutoState) (cell : Cell) : List Cell :=
  let x := cell.2
  let y := cell.1
  let left := if 1 ≤ x - 1 then (y, x - 1) else (y, x)
  let down := if x + 1 ≤ boardWidth then (y, x + 1) else (y, x)
  let up := if 1 ≤ y - 1 then (y - 1, x) else (y, x)
  let right := if y + 1 ≤ boardHeight then (y + 1, x) else (y, x)
  (([left, right, up, down].filter (fun c => cell_unvisited s c)).filter
    (fun c => is_valid_target c))

/-- The eight cells surrounding a cell, in the order all_surrounding_cells of
player.py lists them. -/
def surroundingEight (cell : Cell) : List Cell :=
  let x := cell.2
  let y := cell.1
  [(y - 1, x - 1), (y - 1, x), (y - 1, x + 1), (y, x - 1),
   (y, x + 1), (y + 1, x - 1), (y + 1, x), (y + 1, x + 1)]

/-- AutomaticPlayer.all_surrounding_cells from player.py: the eight
neighbours, keeping the in-bounds ones and then the unvisited ones. -/
def all_surrounding_cells (tracker : Finset Cell) (cell : Cell) : List Cell :=
  ((surroundingEight cell).filter (fun c => is_valid_target c)).filter
    (fun c => decide (c ∉ tracker))

/-- The has_ship_sunk branch of AutomaticPlayer.receive_result: every cell
surrounding a recorded hit of the sunk ship is added to the tracker (the
tracker evolves while the loop runs, exactly as the Python loop mutates
self.tracker), then ship_being_attacked is cleared. -/
def sinkCleanup (s : AutoState) : AutoState :=
  { s with
    tracker := s.ship_being_attacked.foldl
      (fun tr c => tr ∪ (all_surrounding_cells tr c).toFinset) s.tracker
    ship_being_attacked := [] }

/-- AutomaticPlayer.receive_result from player.py.  none models the
IndexError of self.moves[-1] when a hit is reported before any move. -/
def receive_result (s : AutoState) (is_ship_hit has_ship_sunk : Bool) :
    Option AutoState :=
  if is_ship_hit then
    match s.moves.getLast? with
    | none => none
    | some previous_move =>
      let s1 := { s with
        ship_being_attacked := s.ship_being_attacked ++ [previous_move]
        attack_successful := true }
      some (if has_ship_sunk then sinkCleanup s1 else s1)
  else
    let s1 := { s with attack_successful := false }
    some (if has_ship_sunk then sinkCleanup s1 else s1)

/-- Record a chosen target: add it to the tracker and append it to moves,
the three lines repeated in every return path of select_target. -/
def addMove (s : AutoState) (c : Cell) : AutoState :=
  { s with tracker := insert c s.tracker, moves := s.moves ++ [c] }

/-- AutomaticPlayer.select_target from player.py.  The draws list feeds
generate_random_target in the search branch; k models the random.choice index
in the probe branch (reduced modulo the number of candidates); none models
either the unterminated search loop or the IndexError random.choice raises on
an empty candidate list. -/
def select_target (s : AutoState) (draws : List Cell) (k : ℕ) :
    Option (Cell × AutoState) :=
  match s.ship_being_attacked with
  | [] =>
    match generateRandomTarget s.tracker draws with
    | none => none
    | some c => some (c, addMove s c)
  | [hit] =>
    let pts := get_adjacent_cells s hit
    if pts.isEmpty then none
    else
      let c := pts.getD (k % pts.length) hit
      some (c, addMove s c)
  | first :: second :: rest =>
    let lastHit := (first :: second :: rest).getLast (by simp)
    if first.1 = second.1 then
      let c1 := (lastHit.1, lastHit.2 - 1)
      if cell_unvisited s c1 && is_valid_target c1 then some (c1, addMove s c1)
      else
        let c2 := (lastHit.1, lastHit.2 + 1)
        if cell_unvisited s c2 && is_valid_target c2 then some (c2, addMove s c2)
        else
          let c3 := (first.1, first.2 - 1)
          if cell_unvisited s c3 && is_valid_target c3 then some (c3, addMove s c3)
          else
            let c4 := (first.1, first.2 + 1)
            some (c4, addMove s c4)
    else
      let c1 := (lastHit.1 - 1, lastHit.2)
      if cell_unvisited s c1 && is_valid_target c1 then some (c1, addMove s c1)
      else
        let c2 := (lastHit.1 + 1, lastHit.2)
        if cell_unvisited s c2 && is_valid_target c2 then some (c2, addMove s c2)
        else
          let c3 := (first.1 + 1, first.2)
          if cell_unvisited s c3 && is_valid_target c3 then some (c3, addMove s c3)
          else
            let c4 := (first.1 - 1, first.2)
            some (c4, addMove s c4)

/-- The cell the track phase of select_target falls back to when the three
guarded candidates are all rejected: one step past the first recorded hit,
returned without any tracker check. -/
def trackFallbackCell (s : AutoState) : Cell :=
  match s.ship_being_attacked with
  | first :: second :: _ =>
    if first.1 = second.1 then (first.1, first.2 + 1) else (first.1 - 1, first.2)
  | _ => (0, 0)

/-- A cell is orthogonally adjacent to another: one step left, right, up or
down. -/
def orthAdjacent (a b : Cell) : Prop :=
  b = (a.1 - 1, a.2) ∨ b = (a.1 + 1, a.2) ∨ b = (a.1, a.2 - 1) ∨ b = (a.1, a.2 + 1)

/-- A cell of the default 10 by 10 board. -/
def cellInBounds (c : Cell) : Prop := 1 ≤ c.1 ∧ c.1 ≤ 10 ∧ 1 ≤ c.2 ∧ c.2 ≤ 10

/-- The length Ship.length computes for a ship built from these two corners:
the cell set get_cells stores is a vertical segment when the x coordinates
agree and otherwise a horizontal segment, so the recomputed span is the
y span in the first case and the x span in the second. -/
def computedLen (s e : Cell) : ℤ :=
  if s.1 = e.1 then max s.2 e.2 - min s.2 e.2 + 1
  else max s.1 e.1 - min s.1 e.1 + 1

/-- A throwaway single-cell ship used as the default argument of List.getD. -/
def dummyShip : Ship := shipOfCorners (1, 1) (1, 1)

/-- A ship as the constructor produces it from a horizontal or vertical pair
of corners; every ship the factory builds is of this form. -/
def lineShip (sh : Ship) : Prop :=
  ∃ s e : Cell, (s.1 = e.1 ∨ s.2 = e.2) ∧ sh = shipOfCorners s e

/-- The horizontal length-7 ship from (3,1) to (9,1) that the repository's
own test test_length_too_long builds; its construction is accepted because
the corners are collinear. -/
def longShip : Ship := shipOfCorners (3, 1) (9, 1)

/-- A small horizontal length-3 ship used as a concrete evaluation input. -/
def demoShip : Ship := shipOfCorners (3, 3) (5, 3)

/-- A concrete AutomaticPlayer game trace: miss at (5,4), miss at (5,7), hit
at (5,5), then the probe branch hits (5,6); each emitted target is fed back
through receive_result with the attack outcome. -/
def c2trace : Option AutoState :=
  (select_target initAutoState [(5, 4)] 0).bind (fun p1 =>
  (receive_result p1.2 false false).bind (fun s1 =>
  (select_target s1 [(5, 7)] 0).bind (fun p2 =>
  (receive_result p2.2 false false).bind (fun s2 =>
  (select_target s2 [(5, 5)] 0).bind (fun p3 =>
  (receive_result p3.2 true false).bind (fun s3 =>
  (select_target s3 [] 2).bind (fun p4 =>
  receive_result p4.2 true false)))))))

/-- The AutomaticPlayer state reached by c2trace, with two recorded hits
(5,5) and (5,6) and with (5,4), (5,7), (5,5), (5,6) all tracked. -/
def c2before : AutoState := c2trace.getD initAutoState

/-- A draw stream that always proposes the same anchor (1,1) building
horizontally, a possible sequence of random draws. -/
def constStream : ℕ → Draw := fun _ => ⟨1, 1, true⟩

/-- Five draws that place the five default ships on rows 1, 3, 5, 7, 9,
pairwise far apart, padded with copies of the first draw. -/
def goodStream : ℕ → Draw := fun n =>
  ([⟨1, 1, true⟩, ⟨10, 3, true⟩, ⟨1, 5, true⟩, ⟨10, 7, true⟩, ⟨1, 9, true⟩] :
    List Draw).getD n ⟨1, 1, true⟩

/-- Concrete AutomaticPlayer state whose only recorded hit is (5,5), already
tracked, used to instantiate the probe-branch theorem. -/
def probeDemoState : AutoState := ⟨{(5, 5)}, [(5, 5)], true, [(5, 5)]⟩

/-- Concrete AutomaticPlayer state about to receive a sinking result: one
recorded hit (3,3) and last move (3,4). -/
def sinkDemoState : AutoState := ⟨{(3, 3), (3, 4)}, [(3, 3), (3, 4)], true, [(3, 3)]⟩

/-- The recorded hits of the ship under attack at the moment the sunk
cleanup of receive_result runs: the previously recorded hits, plus the last
move when the call reports a hit (receive_result appends moves[-1] before
the cleanup). -/
def recordedHits (s : AutoState) (is_ship_hit : Bool) : List Cell :=
  s.ship_being_attacked ++ (if is_ship_hit then [s.moves.getLastD (0, 0)] else [])

/-!  Theorems.  First a toolbox of lemmas about the embedded operations,
then one theorem per claim (with its counterexample and witness where the
claim calls for them). -/

theorem le_foldl_max (t : List ℤ) (a : ℤ) : a ≤ t.foldl max a := by
  induction t generalizing a with
  | nil => exact le_refl a
  | cons x t ih => exact le_trans (le_max_left a x) (ih (max a x))

theorem mem_le_foldl_max {t : List ℤ} {x : ℤ} (a : ℤ) (hx : x ∈ t) :
    x ≤ t.foldl max a := by
  induction t generalizing a with
  | nil => cases hx
  | cons y t ih =>
    rcases List.mem_cons.mp hx with rfl | hx'
    · exact le_trans (le_max_right a x) (le_foldl_max t (max a x))
    · exact ih (max a y) hx'

theorem foldl_max_le {t : List ℤ} {a m : ℤ} (ha : a ≤ m) (ht : ∀ x ∈ t, x ≤ m) :
    t.foldl max a ≤ m := by
  induction t generalizing a with
  | nil => exact ha
  | cons y t ih =>
    exact ih (max_le ha (ht y (List.mem_cons_self y t)))
      (fun x hx => ht x (List.mem_cons_of_mem y hx))

theorem listMax_eq {l : List ℤ} {m : ℤ} (hm : m ∈ l) (hall : ∀ x ∈ l, x ≤ m) :
    listMax l = m := by
  cases l with
  | nil => cases hm
  | cons a t =>
    refine le_antisymm ?_ ?_
    · exact foldl_max_le (hall a (List.mem_cons_self a t))
        (fun x hx => hall x (List.mem_cons_of_mem a hx))
    · rcases List.mem_cons.mp hm with rfl | hm'
      · exact le_foldl_max t m
      · exact mem_le_foldl_max a hm'

theorem foldl_min_le (t : List ℤ) (a : ℤ) : t.foldl min a ≤ a := by
  induction t generalizing a with
  | nil => exact le_refl a
  | cons x t ih => exact le_trans (ih (min a x)) (min_le_left a x)

theorem foldl_min_le_mem {t : List ℤ} {x : ℤ} (a : ℤ) (hx : x ∈ t) :
    t.foldl min a ≤ x := by
  induction t generalizing a with
  | nil => cases hx
  | cons y t ih =>
    rcases List.mem_cons.mp hx with rfl | hx'
    · exact le_trans (foldl_min_le t (min a x)) (min_le_right a x)
    · exact ih (min a y) hx'

theorem le_foldl_min {t : List ℤ} {a m : ℤ} (ha : m ≤ a) (ht : ∀ x ∈ t, m ≤ x) :
    m ≤ t.foldl min a := by
  induction t generalizing a with
  | nil => exact ha
  | cons y t ih =>
    exact ih (le_min ha (ht y (List.mem_cons_self y t)))
      (fun x hx => ht x (List.mem_cons_of_mem y hx))

theorem listMin_eq {l : List ℤ} {m : ℤ} (hm : m ∈ l) (hall : ∀ x ∈ l, m ≤ x) :
    listMin l = m := by
  cases l with
  | nil => cases hm
  | cons a t =>
    refine le_antisymm ?_ ?_
    · rcases List.mem_cons.mp hm with rfl | hm'
      · exact foldl_min_le t m
      · exact foldl_min_le_mem a hm'
    · exact le_foldl_min (hall a (List.mem_cons_self a t))
        (fun x hx => hall x (List.mem_cons_of_mem a hx))

theorem mem_intRange {lo hi a : ℤ} : a ∈ intRange lo hi ↔ lo ≤ a ∧ a ≤ hi := by
  simp only [intRange, List.mem_map, List.mem_range]
  constructor
  · rintro ⟨i, hlt, rfl⟩
    omega
  · rintro ⟨h1, h2⟩
    exact ⟨(a - lo).toNat, by omega, by omega⟩

theorem intRange_length (lo hi : ℤ) : (intRange lo hi).length = (hi + 1 - lo).toNat := by
  simp [intRange]

theorem intRange_nodup (lo hi : ℤ) : (intRange lo hi).Nodup := by
  refine List.Nodup.map ?_ (List.nodup_range _)
  intro a b hab
  dsimp only at hab
  omega

theorem shipOfCorners_x_start (s e : Cell) :
    (shipOfCorners s e).x_start = min s.1 e.1 := rfl

theorem shipOfCorners_x_end (s e : Cell) :
    (shipOfCorners s e).x_end = max s.1 e.1 := rfl

theorem shipOfCorners_y_start (s e : Cell) :
    (shipOfCorners s e).y_start = min s.2 e.2 := rfl

theorem shipOfCorners_y_end (s e : Cell) :
    (shipOfCorners s e).y_end = max s.2 e.2 := rfl

theorem shipOfCorners_damaged (s e : Cell) :
    (shipOfCorners s e).damaged_cells = ∅ := rfl

theorem shipOfCorners_cells (s e : Cell) :
    (shipOfCorners s e).cellsList =
      if s.1 = e.1 then
        (intRange (min s.2 e.2) (max s.2 e.2)).map (fun y => (min s.1 e.1, y))
      else
        (intRange (min s.1 e.1) (max s.1 e.1)).map (fun x => (x, min s.2 e.2)) := by
  have hiff : (min s.1 e.1 = max s.1 e.1) ↔ s.1 = e.1 := by omega
  by_cases h : s.1 = e.1
  · simp [shipOfCorners, Ship.get_cells, Ship.is_vertical, hiff, h]
  · simp [shipOfCorners, Ship.get_cells, Ship.is_vertical, hiff, h]

theorem mem_cells {s e c : Cell} :
    c ∈ (shipOfCorners s e).cellsList ↔
      (if s.1 = e.1 then c.1 = s.1 ∧ min s.2 e.2 ≤ c.2 ∧ c.2 ≤ max s.2 e.2
       else c.2 = min s.2 e.2 ∧ min s.1 e.1 ≤ c.1 ∧ c.1 ≤ max s.1 e.1) := by
  rw [shipOfCorners_cells]
  by_cases h : s.1 = e.1
  · simp only [h, if_true, List.mem_map, mem_intRange]
    constructor
    · rintro ⟨y, hy, rfl⟩
      simp [h]
      omega
    · rintro ⟨h1, h2, h3⟩
      exact ⟨c.2, ⟨h2, h3⟩, by rw [Prod.ext_iff]; exact ⟨by omega, rfl⟩⟩
  · simp only [h, if_false, List.mem_map, mem_intRange]
    constructor
    · rintro ⟨x, hx, rfl⟩
      simp
      omega
    · rintro ⟨h1, h2, h3⟩
      exact ⟨c.1, ⟨h2, h3⟩, by rw [Prod.ext_iff]; exact ⟨rfl, by omega⟩⟩

theorem cellLo_mem (s e : Cell) :
    ((min s.1 e.1 : ℤ), (min s.2 e.2 : ℤ)) ∈ (shipOfCorners s e).cellsList := by
  rw [mem_cells]
  by_cases h : s.1 = e.1
  · rw [if_pos h]
    refine ⟨by omega, by omega, by omega⟩
  · rw [if_neg h]
    refine ⟨rfl, by omega, by omega⟩

theorem shipLength_shipOfCorners (s e : Cell) :
    (shipOfCorners s e).length =
      if 5 < computedLen s e then LengthResult.pyValueError
      else LengthResult.ok (computedLen s e) := by
  have hfst_max : listMax ((shipOfCorners s e).cellsList.map Prod.fst) = max s.1 e.1 := by
    apply listMax_eq
    · by_cases h : s.1 = e.1
      · have : ((max s.1 e.1 : ℤ)) = min s.1 e.1 := by omega
        rw [this]
        exact List.mem_map.mpr ⟨_, cellLo_mem s e, rfl⟩
      · refine List.mem_map.mpr ⟨((max s.1 e.1 : ℤ), (min s.2 e.2 : ℤ)), ?_, rfl⟩
        rw [mem_cells, if_neg h]
        exact ⟨rfl, by omega, by omega⟩
    · intro x hx
      rcases List.mem_map.mp hx with ⟨c, hc, rfl⟩
      have hmem := mem_cells.mp hc
      by_cases h : s.1 = e.1
      · rw [if_pos h] at hmem
        omega
      · rw [if_neg h] at hmem
        omega
  have hfst_min : listMin ((shipOfCorners s e).cellsList.map Prod.fst) = min s.1 e.1 := by
    apply listMin_eq
    · exact List.mem_map.mpr ⟨_, cellLo_mem s e, rfl⟩
    · intro x hx
      rcases List.mem_map.mp hx with ⟨c, hc, rfl⟩
      have hmem := mem_cells.mp hc
      by_cases h : s.1 = e.1
      · rw [if_pos h] at hmem
        omega
      · rw [if_neg h] at hmem
        omega
  have hsnd_max : listMax ((shipOfCorners s e).cellsList.map Prod.snd) =
      (if s.1 = e.1 then max s.2 e.2 else min s.2 e.2) := by
    apply listMax_eq
    · by_cases h : s.1 = e.1
      · rw [if_pos h]
        refine List.mem_map.mpr ⟨((min s.1 e.1 : ℤ), (max s.2 e.2 : ℤ)), ?_, rfl⟩
        rw [mem_cells, if_pos h]
        exact ⟨by omega, by omega, by omega⟩
      · rw [if_neg h]
        exact List.mem_map.mpr ⟨_, cellLo_mem s e, rfl⟩
    · intro x hx
      rcases List.mem_map.mp hx with ⟨c, hc, rfl⟩
      have hmem := mem_cells.mp hc
      by_cases h : s.1 = e.1
      · rw [if_pos h] at hmem
        rw [if_pos h]
        omega
      · rw [if_neg h] at hmem
        rw [if_neg h]
        omega
  have hsnd_min : listMin ((shipOfCorners s e).cellsList.map Prod.snd) = min s.2 e.2 := by
    apply listMin_eq
    · exact List.mem_map.mpr ⟨_, cellLo_mem s e, rfl⟩
    · intro x hx
      rcases List.mem_map.mp hx with ⟨c, hc, rfl⟩
      have hmem := mem_cells.mp hc
      by_cases h : s.1 = e.1
      · rw [if_pos h] at hmem
        omega
      · rw [if_neg h] at hmem
        omega
  have hlen : max (listMax ((shipOfCorners s e).cellsList.map Prod.fst) -
        listMin ((shipOfCorners s e).cellsList.map Prod.fst) + 1)
      (listMax ((shipOfCorners s e).cellsList.map Prod.snd) -
        listMin ((shipOfCorners s e).cellsList.map Prod.snd) + 1) = computedLen s e := by
    rw [hfst_max, hfst_min, hsnd_max, hsnd_min]
    unfold computedLen
    by_cases h : s.1 = e.1
    · rw [if_pos h, if_pos h]
      omega
    · rw [if_neg h, if_neg h]
      omega
  show (if 5 < max _ _ then LengthResult.pyValueError else LengthResult.ok _) = _
  rw [hlen]

theorem cells_length (s e : Cell) :
    (shipOfCorners s e).cellsList.length = (computedLen s e).toNat := by
  rw [shipOfCorners_cells]
  unfold computedLen
  by_cases h : s.1 = e.1
  · rw [if_pos h, if_pos h]
    rw [List.length_map, intRange_length]
    omega
  · rw [if_neg h, if_neg h]
    rw [List.length_map, intRange_length]
    omega

theorem cells_nodup (s e : Cell) : (shipOfCorners s e).cellsList.Nodup := by
  rw [shipOfCorners_cells]
  by_cases h : s.1 = e.1
  · rw [if_pos h]
    refine List.Nodup.map ?_ (intRange_nodup _ _)
    intro a b hab
    exact congrArg Prod.snd hab
  · rw [if_neg h]
    refine List.Nodup.map ?_ (intRange_nodup _ _)
    intro a b hab
    exact congrArg Prod.fst hab

theorem cells_toFinset_card (s e : Cell) :
    (shipOfCorners s e).cellsList.toFinset.card = (computedLen s e).toNat := by
  rw [List.toFinset_card_of_nodup (cells_nodup s e), cells_length]

theorem computedLen_pos (s e : Cell) : 1 ≤ computedLen s e := by
  unfold computedLen
  by_cases h : s.1 = e.1
  · rw [if_pos h]
    omega
  · rw [if_neg h]
    omega

theorem shipInit_some_elim {s e : Cell} {v : Bool} {sh : Ship}
    (h : shipInit s e v = some sh) :
    sh = shipOfCorners s e ∧ (v = true → s.1 = e.1 ∨ s.2 = e.2) := by
  unfold shipInit at h
  by_cases hc : (v && !(shipOfCorners s e).is_horizontal &&
      !(shipOfCorners s e).is_vertical) = true
  · rw [if_pos hc] at h
    cases h
  · rw [if_neg hc] at h
    refine ⟨(Option.some_inj.mp h).symm, ?_⟩
    intro hv
    subst hv
    rcases Bool.eq_false_or_eq_true (shipOfCorners s e).is_vertical with hvert | hvert
    · left
      simp only [Ship.is_vertical, decide_eq_true_eq] at hvert
      rw [shipOfCorners_x_start, shipOfCorners_x_end] at hvert
      omega
    · rcases Bool.eq_false_or_eq_true (shipOfCorners s e).is_horizontal with hhor | hhor
      · right
        simp only [Ship.is_horizontal, decide_eq_true_eq] at hhor
        rw [shipOfCorners_y_start, shipOfCorners_y_end] at hhor
        omega
      · exact absurd (by rw [hvert, hhor]; rfl) hc

theorem shipInit_some_of_axis {s e : Cell} (v : Bool) (h : s.1 = e.1 ∨ s.2 = e.2) :
    shipInit s e v = some (shipOfCorners s e) := by
  unfold shipInit
  dsimp only
  rcases h with h | h
  · have hv : (shipOfCorners s e).is_vertical = true := by
      apply decide_eq_true
      rw [shipOfCorners_x_start, shipOfCorners_x_end]
      omega
    rw [hv]
    simp
  · have hh : (shipOfCorners s e).is_horizontal = true := by
      apply decide_eq_true
      rw [shipOfCorners_y_start, shipOfCorners_y_end]
      omega
    rw [hh]
    simp

theorem shipInit_false_some (s e : Cell) :
    shipInit s e false = some (shipOfCorners s e) := rfl

theorem receive_damage_keeps_geometry (sh : Ship) (c : Cell) :
    ((sh.receive_damage c).2).x_start = sh.x_start ∧
    ((sh.receive_damage c).2).y_start = sh.y_start ∧
    ((sh.receive_damage c).2).x_end = sh.x_end ∧
    ((sh.receive_damage c).2).y_end = sh.y_end ∧
    ((sh.receive_damage c).2).cellsList = sh.cellsList := by
  unfold Ship.receive_damage
  by_cases h : c ∈ sh.cellsList
  · rw [if_pos h]
    exact ⟨rfl, rfl, rfl, rfl, rfl⟩
  · rw [if_neg h]
    exact ⟨rfl, rfl, rfl, rfl, rfl⟩

theorem foldl_damage_cells (l : List Cell) (sh : Ship) :
    (l.foldl (fun s c => (s.receive_damage c).2) sh).cellsList = sh.cellsList := by
  induction l generalizing sh with
  | nil => rfl
  | cons c t ih =>
    rw [List.foldl_cons, ih, (receive_damage_keeps_geometry sh c).2.2.2.2]

theorem foldl_damage_damaged (l : List Cell) (sh : Ship)
    (hl : ∀ c ∈ l, c ∈ sh.cellsList) :
    (l.foldl (fun s c => (s.receive_damage c).2) sh).damaged_cells =
      sh.damaged_cells ∪ l.toFinset := by
  induction l generalizing sh with
  | nil => simp
  | cons c t ih =>
    rw [List.foldl_cons]
    have hc : c ∈ sh.cellsList := hl c (List.mem_cons_self c t)
    have ht : ∀ x ∈ t, x ∈ ((sh.receive_damage c).2).cellsList := by
      intro x hx
      rw [(receive_damage_keeps_geometry sh c).2.2.2.2]
      exact hl x (List.mem_cons_of_mem c hx)
    rw [ih _ ht]
    have hd : ((sh.receive_damage c).2).damaged_cells = insert c sh.damaged_cells := by
      unfold Ship.receive_damage
      rw [if_pos hc]
    rw [hd, List.toFinset_cons]
    ext x
    simp only [Finset.mem_union, Finset.mem_insert]
    tauto

theorem damageAll_cells (sh : Ship) : (damageAll sh).cellsList = sh.cellsList :=
  foldl_damage_cells sh.cellsList sh

theorem damageAll_damaged (sh : Ship) :
    (damageAll sh).damaged_cells = sh.damaged_cells ∪ sh.cellsList.toFinset :=
  foldl_damage_damaged sh.cellsList sh (fun _ hc => hc)

theorem length_eq_of_cells {a b : Ship} (h : a.cellsList = b.cellsList) :
    a.length = b.length := by
  unfold Ship.length
  rw [h]

theorem has_sunk_of_ok {sh : Ship} {n : ℤ} (h : sh.length = LengthResult.ok n) :
    sh.has_sunk = decide (n = (sh.count_damaged_cells : ℤ)) := by
  unfold Ship.has_sunk
  rw [h]

theorem has_sunk_of_sentinel {sh : Ship} (h : sh.length = LengthResult.pyValueError) :
    sh.has_sunk = false := by
  unfold Ship.has_sunk
  rw [h]

/-- C9: Ship.is_near_cell accepts a cell exactly when it lies in the ship's
bounding box expanded by one cell in every direction, that is, when it is at
Chebyshev distance at most 1 from some point of the ship's occupied
rectangle, diagonal corners included. -/
theorem is_near_cell_iff_chebyshev (s e c : Cell) :
    (shipOfCorners s e).is_near_cell c = true ↔
      ∃ p : Cell,
        (min s.1 e.1 ≤ p.1 ∧ p.1 ≤ max s.1 e.1 ∧
         min s.2 e.2 ≤ p.2 ∧ p.2 ≤ max s.2 e.2) ∧
        max |c.1 - p.1| |c.2 - p.2| ≤ 1 := by
  unfold Ship.is_near_cell
  rw [shipOfCorners_x_start, shipOfCorners_x_end, shipOfCorners_y_start,
    shipOfCorners_y_end, decide_eq_true_eq]
  constructor
  · rintro ⟨h1, h2, h3, h4⟩
    refine ⟨(max (min s.1 e.1) (min (max s.1 e.1) c.1),
             max (min s.2 e.2) (min (max s.2 e.2) c.2)), ⟨?_, ?_, ?_, ?_⟩, ?_⟩
    · omega
    · omega
    · omega
    · omega
    · rw [max_le_iff, abs_le, abs_le]
      omega
  · rintro ⟨p, ⟨hp1, hp2, hp3, hp4⟩, hd⟩
    rw [max_le_iff, abs_le, abs_le] at hd
    omega

/-- C9 witness: the cell one step diagonally past the right end of the demo
ship is near it. -/
theorem is_near_cell_iff_chebyshev_witness :
    demoShip.is_near_cell (6, 4) = true :=
  (is_near_cell_iff_chebyshev (3, 3) (5, 3) (6, 4)).mpr ⟨(5, 3), by decide, by decide⟩

/-- C10: a pair of corners describing neither a horizontal nor a vertical
line (which validating construction rejects) is accepted when
should_validate is False, and the stored occupied cells are exactly the
horizontal segment at the smaller y coordinate: the y extent of the corners
is silently discarded. -/
theorem diagonal_corners_unvalidated (s e : Cell) (hx : s.1 ≠ e.1) (hy : s.2 ≠ e.2) :
    shipInit s e true = none ∧
    shipInit s e false = some (shipOfCorners s e) ∧
    ∀ c : Cell, c ∈ (shipOfCorners s e).cellsList ↔
      (c.2 = min s.2 e.2 ∧ min s.1 e.1 ≤ c.1 ∧ c.1 ≤ max s.1 e.1) := by
  refine ⟨?_, shipInit_false_some s e, fun c => ?_⟩
  · have hh : (shipOfCorners s e).is_horizontal = false := by
      apply decide_eq_false
      rw [shipOfCorners_y_start, shipOfCorners_y_end]
      omega
    have hv : (shipOfCorners s e).is_vertical = false := by
      apply decide_eq_false
      rw [shipOfCorners_x_start, shipOfCorners_x_end]
      omega
    unfold shipInit
    dsimp only
    rw [hh, hv]
    rfl
  · rw [mem_cells, if_neg hx]

/-- C10 witness: the diagonal corners (2,5) and (4,1) are accepted without
validation and occupy the horizontal segment through (3,1). -/
theorem diagonal_corners_unvalidated_witness :
    shipInit (2, 5) (4, 1) true = none ∧
    shipInit (2, 5) (4, 1) false = some (shipOfCorners (2, 5) (4, 1)) ∧
    ((3 : ℤ), (1 : ℤ)) ∈ (shipOfCorners (2, 5) (4, 1)).cellsList := by
  have h := diagonal_corners_unvalidated (2, 5) (4, 1) (by decide) (by decide)
  exact ⟨h.1, h.2.1, (h.2.2 (3, 1)).mpr (by decide)⟩

/-- C1 counterexample: the length-7 ship of the repository's own test
test_length_too_long.  Its construction is accepted, and length() completes
normally, handing back the ValueError class object as an ordinary return
value (not the numeric length, and without raising anything). -/
theorem c1_counterexample :
    shipInit (3, 1) (9, 1) true = some longShip ∧
    longShip.length = LengthResult.pyValueError ∧
    longShip.length ≠ LengthResult.ok 7 := by decide

/-- C1 (amended): for every validated ship construction, length() returns
the ValueError class object as a value exactly when the computed length
max(x_span, y_span) exceeds 5, and any numeric value it returns is at
most 5; nothing is ever raised, the sentinel value is returned instead. -/
theorem length_over_five_returns_sentinel (s e : Cell) (sh : Ship)
    (h : shipInit s e true = some sh) :
    (5 < max (max s.1 e.1 - min s.1 e.1 + 1) (max s.2 e.2 - min s.2 e.2 + 1) ↔
      sh.length = LengthResult.pyValueError) ∧
    ∀ n : ℤ, sh.length = LengthResult.ok n → n ≤ 5 := by
  obtain ⟨rfl, haxis⟩ := shipInit_some_elim h
  have haxis2 := haxis rfl
  have hmax : max (max s.1 e.1 - min s.1 e.1 + 1) (max s.2 e.2 - min s.2 e.2 + 1) =
      computedLen s e := by
    unfold computedLen
    rcases haxis2 with h1 | h1
    · rw [if_pos h1]
      omega
    · by_cases h2 : s.1 = e.1
      · rw [if_pos h2]
        omega
      · rw [if_neg h2]
        omega
  rw [hmax, shipLength_shipOfCorners]
  constructor
  · constructor
    · intro h5
      rw [if_pos h5]
    · intro heq
      by_cases h5 : 5 < computedLen s e
      · exact h5
      · rw [if_neg h5] at heq
        exact LengthResult.noConfusion heq
  · intro n heq
    by_cases h5 : 5 < computedLen s e
    · rw [if_pos h5] at heq
      exact LengthResult.noConfusion heq
    · rw [if_neg h5] at heq
      injection heq with h2
      omega

/-- C1 witness: the test ship's spans exceed 5 and its length() call
returns the sentinel. -/
theorem length_over_five_returns_sentinel_witness :
    ((5 : ℤ) < max (max (3 : ℤ) 9 - min (3 : ℤ) 9 + 1) (max (1 : ℤ) 1 - min (1 : ℤ) 1 + 1)) ∧
    longShip.length = LengthResult.pyValueError :=
  ⟨by decide,
   (length_over_five_returns_sentinel (3, 1) (9, 1) longShip (by decide)).1.mp (by decide)⟩

/-- C4 counterexample: damaging every occupied cell of the accepted length-7
ship leaves has_sunk false, because length() returns the ValueError class
there and the Python comparison of that class with the damaged count is
False. -/
theorem c4_counterexample :
    shipInit (1, 1) (7, 1) true = some (shipOfCorners (1, 1) (7, 1)) ∧
    (damageAll (shipOfCorners (1, 1) (7, 1))).count_damaged_cells = 7 ∧
    (damageAll (shipOfCorners (1, 1) (7, 1))).has_sunk = false := by decide

/-- C4 (amended): has_sunk is true exactly when length() returns the damaged
cell count as a number; and every constructed ship whose length() returns a
number (computed length at most 5) has has_sunk true after receive_damage is
called on every occupied cell. -/
theorem has_sunk_iff_and_full_damage :
    (∀ sh : Ship,
      sh.has_sunk = true ↔ sh.length = LengthResult.ok ((sh.count_damaged_cells : ℤ))) ∧
    (∀ (s e : Cell) (v : Bool) (sh : Ship), shipInit s e v = some sh →
      sh.length ≠ LengthResult.pyValueError → (damageAll sh).has_sunk = true) := by
  constructor
  · intro sh
    cases hL : sh.length with
    | ok n =>
      rw [has_sunk_of_ok hL]
      constructor
      · intro h
        rw [of_decide_eq_true h]
      · intro h
        injection h with h2
        exact decide_eq_true h2
    | pyValueError =>
      rw [has_sunk_of_sentinel hL]
      exact iff_of_false Bool.false_ne_true (fun h2 => LengthResult.noConfusion h2)
  · intro s e v sh h hne
    obtain ⟨rfl, -⟩ := shipInit_some_elim h
    have h5 : ¬ 5 < computedLen s e := by
      intro h5
      apply hne
      rw [shipLength_shipOfCorners, if_pos h5]
    have hlen : (damageAll (shipOfCorners s e)).length =
        LengthResult.ok (computedLen s e) := by
      rw [length_eq_of_cells (damageAll_cells (shipOfCorners s e)),
        shipLength_shipOfCorners, if_neg h5]
    rw [has_sunk_of_ok hlen]
    apply decide_eq_true
    unfold Ship.count_damaged_cells
    rw [damageAll_damaged, shipOfCorners_damaged, Finset.empty_union,
      cells_toFinset_card]
    have := computedLen_pos s e
    omega

/-- C4 witness: fully damaging the demo length-3 ship sinks it. -/
theorem has_sunk_iff_and_full_damage_witness :
    (damageAll demoShip).has_sunk = true :=
  has_sunk_iff_and_full_damage.2 (3, 3) (5, 3) true demoShip (by decide) (by decide)

/-- C5: receive_damage is idempotent: damaging an occupied cell twice
reports a hit both times, the damaged count after the second call equals the
count after the first, and a first hit on an undamaged cell raises the
count by exactly one. -/
theorem receive_damage_idempotent (sh : Ship) (c : Cell) (hc : c ∈ sh.cellsList) :
    (sh.receive_damage c).1 = true ∧
    ((sh.receive_damage c).2.receive_damage c).1 = true ∧
    ((sh.receive_damage c).2.receive_damage c).2.count_damaged_cells =
      (sh.receive_damage c).2.count_damaged_cells ∧
    (c ∉ sh.damaged_cells →
      (sh.receive_damage c).2.count_damaged_cells = sh.count_damaged_cells + 1) := by
  have h1 : sh.receive_damage c =
      (true, { sh with damaged_cells := insert c sh.damaged_cells }) := by
    unfold Ship.receive_damage
    rw [if_pos hc]
  have hc1 : c ∈ ({ sh with damaged_cells := insert c sh.damaged_cells } : Ship).cellsList := hc
  have h2 : ({ sh with damaged_cells := insert c sh.damaged_cells } : Ship).receive_damage c =
      (true, { sh with damaged_cells := insert c (insert c sh.damaged_cells) }) := by
    unfold Ship.receive_damage
    rw [if_pos hc1]
  rw [h1, h2]
  refine ⟨rfl, rfl, ?_, ?_⟩
  · unfold Ship.count_damaged_cells
    rw [Finset.insert_idem]
  · intro hnc
    unfold Ship.count_damaged_cells
    exact Finset.card_insert_of_not_mem hnc

/-- C5 witness: hitting (4,3) on the demo ship reports a hit and raises the
damaged count from 0 to 1. -/
theorem receive_damage_idempotent_witness :
    (demoShip.receive_damage (4, 3)).1 = true ∧
    (demoShip.receive_damage (4, 3)).2.count_damaged_cells =
      demoShip.count_damaged_cells + 1 := by
  have h := receive_damage_idempotent demoShip (4, 3) (by decide)
  exact ⟨h.1, h.2.2.2 (by decide)⟩

/-- C6 counterexample: the corners (3,1) and (9,1) describe a horizontal
line and are accepted, the occupied cell set has cardinality 7, but
length() does not return that cardinality: it returns the ValueError class
object. -/
theorem c6_counterexample :
    shipInit (3, 1) (9, 1) true = some longShip ∧
    longShip.cellsList.toFinset.card = 7 ∧
    longShip.length ≠ LengthResult.ok ((longShip.cellsList.toFinset.card : ℤ)) ∧
    longShip.length = LengthResult.pyValueError := by decide

/-- C6 (amended): for every horizontal or vertical pair of corners whose
computed span is at most 5, construction succeeds, get_cells has cardinality
equal to the value length() returns, and both endpoint cells are occupied
(endpoint containment needs no span bound, the cardinality clause does). -/
theorem cells_card_eq_length_and_endpoints (s e : Cell)
    (haxis : s.1 = e.1 ∨ s.2 = e.2)
    (hspan : max (max s.1 e.1 - min s.1 e.1 + 1) (max s.2 e.2 - min s.2 e.2 + 1) ≤ 5) :
    shipInit s e true = some (shipOfCorners s e) ∧
    (shipOfCorners s e).length =
      LengthResult.ok (((shipOfCorners s e).cellsList.toFinset.card : ℤ)) ∧
    s ∈ (shipOfCorners s e).cellsList ∧ e ∈ (shipOfCorners s e).cellsList := by
  have hlen : computedLen s e ≤ 5 := by
    unfold computedLen
    by_cases h : s.1 = e.1
    · rw [if_pos h]
      omega
    · rw [if_neg h]
      omega
  refine ⟨shipInit_some_of_axis true haxis, ?_, ?_, ?_⟩
  · rw [shipLength_shipOfCorners, if_neg (by omega), cells_toFinset_card]
    have := computedLen_pos s e
    congr 1
    omega
  · rw [mem_cells]
    by_cases h : s.1 = e.1
    · rw [if_pos h]
      exact ⟨rfl, by omega, by omega⟩
    · rw [if_neg h]
      rcases haxis with h1 | h1
      · exact absurd h1 h
      · exact ⟨by omega, by omega, by omega⟩
  · rw [mem_cells]
    by_cases h : s.1 = e.1
    · rw [if_pos h]
      exact ⟨h.symm, by omega, by omega⟩
    · rw [if_neg h]
      rcases haxis with h1 | h1
      · exact absurd h1 h
      · exact ⟨by omega, by omega, by omega⟩

/-- C6 witness: the demo length-3 ship has 3 occupied cells, length() = 3,
and occupies both endpoints. -/
theorem cells_card_eq_length_and_endpoints_witness :
    demoShip.length = LengthResult.ok ((demoShip.cellsList.toFinset.card : ℤ)) ∧
    ((3 : ℤ), (3 : ℤ)) ∈ demoShip.cellsList ∧ ((5 : ℤ), (3 : ℤ)) ∈ demoShip.cellsList := by
  have h := cells_card_eq_length_and_endpoints (3, 3) (5, 3) (Or.inr rfl) (by decide)
  exact ⟨h.2.1, h.2.2.1, h.2.2.2⟩

theorem subset_sinkFold (l : List Cell) (tr : Finset Cell) :
    tr ⊆ l.foldl (fun t c => t ∪ (all_surrounding_cells t c).toFinset) tr := by
  induction l generalizing tr with
  | nil => exact Finset.Subset.refl tr
  | cons c t ih =>
    rw [List.foldl_cons]
    exact Finset.Subset.trans Finset.subset_union_left (ih _)

theorem mem_sinkFold {l : List Cell} {c n : Cell} (hc : c ∈ l)
    (hn : n ∈ surroundingEight c) (hv : is_valid_target n = true) (tr : Finset Cell) :
    n ∈ l.foldl (fun t c2 => t ∪ (all_surrounding_cells t c2).toFinset) tr := by
  induction l generalizing tr with
  | nil => cases hc
  | cons a t ih =>
    rw [List.foldl_cons]
    rcases List.mem_cons.mp hc with rfl | hc2
    · apply Finset.mem_of_subset (subset_sinkFold t _)
      by_cases hmem : n ∈ tr
      · exact Finset.mem_union_left _ hmem
      · apply Finset.mem_union_right
        rw [List.mem_toFinset]
        unfold all_surrounding_cells
        rw [List.mem_filter, List.mem_filter]
        exact ⟨⟨hn, hv⟩, decide_eq_true hmem⟩
    · exact ih hc2 _

theorem sinkCleanup_tracker (s : AutoState) :
    (sinkCleanup s).tracker = s.ship_being_attacked.foldl
      (fun tr c => tr ∪ (all_surrounding_cells tr c).toFinset) s.tracker := rfl

theorem sinkCleanup_cleared (s : AutoState) :
    (sinkCleanup s).ship_being_attacked = [] := rfl

/-- C8: when receive_result reports a sunk ship, afterwards the tracker
contains every in-bounds cell among the eight surrounding each recorded hit
of the ship under attack (the final hit just appended included), and
ship_being_attacked is empty. -/
theorem sunk_result_rings_tracker (s : AutoState) (is_ship_hit : Bool) (s2 : AutoState)
    (h : receive_result s is_ship_hit true = some s2) :
    (∀ c ∈ recordedHits s is_ship_hit, ∀ n ∈ surroundingEight c,
      is_valid_target n = true → n ∈ s2.tracker) ∧
    s2.ship_being_attacked = [] := by
  cases is_ship_hit with
  | true =>
    unfold receive_result at h
    rw [if_pos rfl] at h
    cases hL : s.moves.getLast? with
    | none =>
      rw [hL] at h
      cases h
    | some prev =>
      rw [hL] at h
      dsimp only at h
      rw [if_pos rfl] at h
      obtain rfl := Option.some_inj.mp h
      have hrec : recordedHits s true = s.ship_being_attacked ++ [prev] := by
        unfold recordedHits
        rw [if_pos rfl, List.getLastD_eq_getLast?, hL]
        rfl
      refine ⟨?_, sinkCleanup_cleared _⟩
      intro c hcmem n hn hv
      rw [hrec] at hcmem
      rw [sinkCleanup_tracker]
      exact mem_sinkFold hcmem hn hv _
  | false =>
    unfold receive_result at h
    rw [if_neg Bool.false_ne_true] at h
    dsimp only at h
    rw [if_pos rfl] at h
    obtain rfl := Option.some_inj.mp h
    have hrec : recordedHits s false = s.ship_being_attacked := by
      unfold recordedHits
      rw [if_neg Bool.false_ne_true, List.append_nil]
    refine ⟨?_, sinkCleanup_cleared _⟩
    intro c hcmem n hn hv
    rw [hrec] at hcmem
    rw [sinkCleanup_tracker]
    exact mem_sinkFold hcmem hn hv _

theorem mem_get_adjacent_cells {s : AutoState} {hit c : Cell} (hmem : hit ∈ s.tracker) :
    c ∈ get_adjacent_cells s hit ↔
      orthAdjacent hit c ∧ is_valid_target c = true ∧ c ∉ s.tracker := by
  unfold get_adjacent_cells
  dsimp only
  rw [List.mem_filter, List.mem_filter]
  constructor
  · rintro ⟨⟨hin, hunv⟩, hval⟩
    have hnt : c ∉ s.tracker := of_decide_eq_true hunv
    refine ⟨?_, hval, hnt⟩
    simp only [List.mem_cons, List.not_mem_nil, or_false] at hin
    unfold orthAdjacent
    rcases hin with h1 | h1 | h1 | h1
    · by_cases hb : (1 : ℤ) ≤ hit.2 - 1
      · rw [if_pos hb] at h1
        exact Or.inr (Or.inr (Or.inl h1))
      · rw [if_neg hb] at h1
        rw [Prod.mk.eta] at h1
        subst h1
        exact absurd hmem hnt
    · by_cases hb : hit.1 + 1 ≤ boardHeight
      · rw [if_pos hb] at h1
        exact Or.inr (Or.inl h1)
      · rw [if_neg hb] at h1
        rw [Prod.mk.eta] at h1
        subst h1
        exact absurd hmem hnt
    · by_cases hb : (1 : ℤ) ≤ hit.1 - 1
      · rw [if_pos hb] at h1
        exact Or.inl h1
      · rw [if_neg hb] at h1
        rw [Prod.mk.eta] at h1
        subst h1
        exact absurd hmem hnt
    · by_cases hb : hit.2 + 1 ≤ boardWidth
      · rw [if_pos hb] at h1
        exact Or.inr (Or.inr (Or.inr h1))
      · rw [if_neg hb] at h1
        rw [Prod.mk.eta] at h1
        subst h1
        exact absurd hmem hnt
  · rintro ⟨hadj, hval, hnt⟩
    refine ⟨⟨?_, decide_eq_true hnt⟩, hval⟩
    simp only [List.mem_cons, List.not_mem_nil, or_false]
    have hv : 1 ≤ c.2 ∧ c.2 ≤ boardWidth ∧ 1 ≤ c.1 ∧ c.1 ≤ boardHeight := by
      unfold is_valid_target at hval
      exact of_decide_eq_true hval
    unfold boardWidth boardHeight at hv ⊢
    unfold orthAdjacent at hadj
    rcases hadj with h1 | h1 | h1 | h1 <;> subst h1 <;> dsimp only at hv
    · rw [if_pos (by omega : (1 : ℤ) ≤ hit.1 - 1)]
      exact Or.inr (Or.inr (Or.inl rfl))
    · rw [if_pos (by omega : hit.1 + 1 ≤ (10 : ℤ))]
      exact Or.inr (Or.inl rfl)
    · rw [if_pos (by omega : (1 : ℤ) ≤ hit.2 - 1)]
      exact Or.inl rfl
    · rw [if_pos (by omega : hit.2 + 1 ≤ (10 : ℤ))]
      exact Or.inr (Or.inr (Or.inr rfl))

/-- C7: when the hit list holds exactly one recorded hit (already tracked,
as every emitted target is) and some untracked in-bounds orthogonally
adjacent cell exists, select_target returns an untracked, in-bounds cell
orthogonally adjacent to that hit, and every such candidate is the result
for some random choice. -/
theorem probe_select_target_adjacent (s : AutoState) (hit : Cell)
    (hsba : s.ship_being_attacked = [hit]) (hmem : hit ∈ s.tracker)
    (hex : ∃ c0 : Cell, orthAdjacent hit c0 ∧ is_valid_target c0 = true ∧ c0 ∉ s.tracker) :
    (∀ (draws : List Cell) (k : ℕ) (c : Cell) (s2 : AutoState),
      select_target s draws k = some (c, s2) →
      orthAdjacent hit c ∧ is_valid_target c = true ∧ c ∉ s.tracker) ∧
    (∀ c : Cell, orthAdjacent hit c → is_valid_target c = true → c ∉ s.tracker →
      ∃ (k : ℕ) (s2 : AutoState), select_target s [] k = some (c, s2)) := by
  obtain ⟨c0, hc0⟩ := hex
  have hc0mem : c0 ∈ get_adjacent_cells s hit := (mem_get_adjacent_cells hmem).mpr hc0
  have hnil : get_adjacent_cells s hit ≠ [] := by
    intro hn
    rw [hn] at hc0mem
    cases hc0mem
  have hne : (get_adjacent_cells s hit).isEmpty = false := by
    cases hpts : get_adjacent_cells s hit with
    | nil => exact absurd hpts hnil
    | cons a t => rfl
  have hlen : 0 < (get_adjacent_cells s hit).length := List.length_pos.mpr hnil
  constructor
  · intro draws k c s2 h
    unfold select_target at h
    rw [hsba] at h
    dsimp only at h
    rw [hne, if_neg Bool.false_ne_true] at h
    injection h with h2
    have hc : (get_adjacent_cells s hit).getD
        (k % (get_adjacent_cells s hit).length) hit = c := congrArg Prod.fst h2
    have hidx := Nat.mod_lt k hlen
    rw [List.getD_eq_getElem _ _ hidx] at hc
    refine (mem_get_adjacent_cells hmem).mp ?_
    rw [← hc]
    exact List.getElem_mem hidx
  · intro c hadj hval hnt
    have hcmem : c ∈ get_adjacent_cells s hit :=
      (mem_get_adjacent_cells hmem).mpr ⟨hadj, hval, hnt⟩
    obtain ⟨i, hieq⟩ := List.mem_iff_get.mp hcmem
    refine ⟨i.1, addMove s c, ?_⟩
    unfold select_target
    rw [hsba]
    dsimp only
    rw [hne, if_neg Bool.false_ne_true]
    have hgd : (get_adjacent_cells s hit).getD
        (i.1 % (get_adjacent_cells s hit).length) hit = c := by
      rw [Nat.mod_eq_of_lt i.2, List.getD_eq_getElem _ _ i.2, ← hieq]
      rfl
    rw [hgd]

/-- C7 witness: from the probe state with sole tracked hit (5,5) and random
choice 0, select_target returns (5,4), which is adjacent, in bounds and
untracked. -/
theorem probe_select_target_adjacent_witness :
    orthAdjacent (5, 5) (5, 4) ∧ is_valid_target (5, 4) = true ∧
    ((5 : ℤ), (4 : ℤ)) ∉ probeDemoState.tracker := by
  have h := probe_select_target_adjacent probeDemoState (5, 5) rfl (by decide)
    ⟨(5, 4), by unfold orthAdjacent; decide, by decide, by decide⟩
  exact h.1 [] 0 (5, 4) (addMove probeDemoState (5, 4)) (by decide)

theorem generateRandomTarget_not_mem {tr : Finset Cell} {draws : List Cell} {c : Cell}
    (h : generateRandomTarget tr draws = some c) : c ∉ tr := by
  induction draws with
  | nil => cases h
  | cons d ds ih =>
    unfold generateRandomTarget at h
    by_cases hd : d ∈ tr
    · rw [if_pos hd] at h
      exact ih h
    · rw [if_neg hd] at h
      obtain rfl := Option.some_inj.mp h
      exact hd

/-- C8 witness: after a hit at (3,4) sinks the ship with recorded hit (3,3),
every in-bounds neighbour of both hits (for example (2,2) and (4,5)) is
tracked and the hit list is cleared. -/
theorem sunk_result_rings_tracker_witness :
    ((2, 2) ∈ ((receive_result sinkDemoState true true).getD initAutoState).tracker) ∧
    ((4, 5) ∈ ((receive_result sinkDemoState true true).getD initAutoState).tracker) ∧
    ((receive_result sinkDemoState true true).getD initAutoState).ship_being_attacked = [] := by
  have h := sunk_result_rings_tracker sinkDemoState true
    ((receive_result sinkDemoState true true).getD initAutoState) (by decide)
  refine ⟨h.1 (3, 3) (by decide) (2, 2) (by decide) (by decide),
    h.1 (3, 4) (by decide) (4, 5) (by decide) (by decide), h.2⟩

/-- C2 counterexample: a reachable AutomaticPlayer trace (two random misses
at (5,4) and (5,7), a random hit at (5,5), then a probe hit at (5,6)) after
which the track phase finds its three guarded candidates all tracked and
falls through to the unguarded fallback: select_target returns (5,6), a cell
that is already in the tracker and was already emitted (it is in moves),
while untracked board cells remain, so a cell is targeted twice. -/
theorem c2_counterexample :
    c2trace.isSome = true ∧
    (select_target c2before [] 0).map Prod.fst = some ((5 : ℤ), (6 : ℤ)) ∧
    ((5 : ℤ), (6 : ℤ)) ∈ c2before.tracker ∧
    ((5 : ℤ), (6 : ℤ)) ∈ c2before.moves ∧
    ((1 : ℤ), (1 : ℤ)) ∉ c2before.tracker := by decide

/-- C2 (amended): a RandomPlayer never returns a tracked cell; an
AutomaticPlayer never returns a tracked cell except possibly on the track
phase's final fallback (one step past the first recorded hit, taken when the
three guarded candidates are rejected), which is returned without a tracker
check. -/
theorem select_target_fresh_except_fallback :
    (∀ (s : RandomState) (draws : List Cell) (c : Cell) (s2 : RandomState),
      randomSelectTarget s draws = some (c, s2) → c ∉ s.tracker) ∧
    (∀ (s : AutoState) (draws : List Cell) (k : ℕ) (c : Cell) (s2 : AutoState),
      select_target s draws k = some (c, s2) →
      c ∉ s.tracker ∨ c = trackFallbackCell s) := by
  constructor
  · intro s draws c s2 h
    unfold randomSelectTarget at h
    cases hg : generateRandomTarget s.tracker draws with
    | none =>
      rw [hg] at h
      cases h
    | some c0 =>
      rw [hg] at h
      injection h with h2
      have hc : c0 = c := congrArg Prod.fst h2
      rw [← hc]
      exact generateRandomTarget_not_mem hg
  · intro s draws k c s2 h
    cases hsba : s.ship_being_attacked with
    | nil =>
      left
      unfold select_target at h
      rw [hsba] at h
      dsimp only at h
      cases hg : generateRandomTarget s.tracker draws with
      | none =>
        rw [hg] at h
        cases h
      | some c0 =>
        rw [hg] at h
        injection h with h2
        have hc : c0 = c := congrArg Prod.fst h2
        rw [← hc]
        exact generateRandomTarget_not_mem hg
    | cons first tail =>
      cases tail with
      | nil =>
        left
        unfold select_target at h
        rw [hsba] at h
        dsimp only at h
        by_cases he : (get_adjacent_cells s first).isEmpty
        · rw [if_pos he] at h
          cases h
        · rw [if_neg he] at h
          injection h with h2
          have hc : (get_adjacent_cells s first).getD
              (k % (get_adjacent_cells s first).length) first = c := congrArg Prod.fst h2
          have hnil : get_adjacent_cells s first ≠ [] := by
            intro hn
            rw [hn] at he
            exact he rfl
          have hlen : 0 < (get_adjacent_cells s first).length := List.length_pos.mpr hnil
          have hidx := Nat.mod_lt k hlen
          rw [List.getD_eq_getElem _ _ hidx] at hc
          have hcmem : c ∈ get_adjacent_cells s first := by
            rw [← hc]
            exact List.getElem_mem hidx
          unfold get_adjacent_cells at hcmem
          rw [List.mem_filter, List.mem_filter] at hcmem
          exact of_decide_eq_true hcmem.1.2
      | cons second rest =>
        unfold select_target at h
        rw [hsba] at h
        dsimp only at h
        have hfb : trackFallbackCell s =
            (if first.1 = second.1 then (first.1, first.2 + 1)
             else (first.1 - 1, first.2)) := by
          unfold trackFallbackCell
          rw [hsba]
        by_cases hor : first.1 = second.1
        · rw [if_pos hor] at h
          by_cases g1 : (cell_unvisited s (((first :: second :: rest).getLast (by simp)).1,
              ((first :: second :: rest).getLast (by simp)).2 - 1) &&
              is_valid_target (((first :: second :: rest).getLast (by simp)).1,
              ((first :: second :: rest).getLast (by simp)).2 - 1)) = true
          · rw [if_pos g1] at h
            simp only [Option.some_inj, Prod.mk.injEq] at h
            obtain ⟨rfl, rfl⟩ := h
            left
            exact of_decide_eq_true (Bool.and_elim_left g1)
          · rw [if_neg g1] at h
            by_cases g2 : (cell_unvisited s (((first :: second :: rest).getLast (by simp)).1,
                ((first :: second :: rest).getLast (by simp)).2 + 1) &&
                is_valid_target (((first :: second :: rest).getLast (by simp)).1,
                ((first :: second :: rest).getLast (by simp)).2 + 1)) = true
            · rw [if_pos g2] at h
              simp only [Option.some_inj, Prod.mk.injEq] at h
              obtain ⟨rfl, rfl⟩ := h
              left
              exact of_decide_eq_true (Bool.and_elim_left g2)
            · rw [if_neg g2] at h
              by_cases g3 : (cell_unvisited s (first.1, first.2 - 1) &&
                  is_valid_target (first.1, first.2 - 1)) = true
              · rw [if_pos g3] at h
                simp only [Option.some_inj, Prod.mk.injEq] at h
                obtain ⟨rfl, rfl⟩ := h
                left
                exact of_decide_eq_true (Bool.and_elim_left g3)
              · rw [if_neg g3] at h
                simp only [Option.some_inj, Prod.mk.injEq] at h
                obtain ⟨rfl, rfl⟩ := h
                right
                rw [hfb, if_pos hor]
        · rw [if_neg hor] at h
          by_cases g1 : (cell_unvisited s (((first :: second :: rest).getLast (by simp)).1 - 1,
              ((first :: second :: rest).getLast (by simp)).2) &&
              is_valid_target (((first :: second :: rest).getLast (by simp)).1 - 1,
              ((first :: second :: rest).getLast (by simp)).2)) = true
          · rw [if_pos g1] at h
            simp only [Option.some_inj, Prod.mk.injEq] at h
            obtain ⟨rfl, rfl⟩ := h
            left
            exact of_decide_eq_true (Bool.and_elim_left g1)
          · rw [if_neg g1] at h
            by_cases g2 : (cell_unvisited s (((first :: second :: rest).getLast (by simp)).1 + 1,
                ((first :: second :: rest).getLast (by simp)).2) &&
                is_valid_target (((first :: second :: rest).getLast (by simp)).1 + 1,
                ((first :: second :: rest).getLast (by simp)).2)) = true
            · rw [if_pos g2] at h
              simp only [Option.some_inj, Prod.mk.injEq] at h
              obtain ⟨rfl, rfl⟩ := h
              left
              exact of_decide_eq_true (Bool.and_elim_left g2)
            · rw [if_neg g2] at h
              by_cases g3 : (cell_unvisited s (first.1 + 1, first.2) &&
                  is_valid_target (first.1 + 1, first.2)) = true
              · rw [if_pos g3] at h
                simp only [Option.some_inj, Prod.mk.injEq] at h
                obtain ⟨rfl, rfl⟩ := h
                left
                exact of_decide_eq_true (Bool.and_elim_left g3)
              · rw [if_neg g3] at h
                simp only [Option.some_inj, Prod.mk.injEq] at h
                obtain ⟨rfl, rfl⟩ := h
                right
                rw [hfb, if_neg hor]

theorem build_ship_eq (bs : ℤ × ℤ) (l : ℤ) (d : Draw) :
    build_ship bs l d =
      if d.horiz then
        shipOfCorners (d.x, d.y)
          ((if d.x + 1 - l < 1 then d.x - 1 + l else d.x + 1 - l), d.y)
      else
        shipOfCorners (d.x, d.y)
          (d.x, (if bs.2 < d.y - 1 + l then d.y + 1 - l else d.y - 1 + l)) := rfl

theorem build_ship_spec (l : ℤ) (d : Draw) (hl1 : 1 ≤ l) (hl5 : l ≤ 5)
    (hx1 : 1 ≤ d.x) (hx2 : d.x ≤ 10) (hy1 : 1 ≤ d.y) (hy2 : d.y ≤ 10) :
    (build_ship (10, 10) l d).length = LengthResult.ok l ∧
    (∀ c ∈ (build_ship (10, 10) l d).cellsList, cellInBounds c) ∧
    lineShip (build_ship (10, 10) l d) := by
  rw [build_ship_eq]
  dsimp only
  cases hh : d.horiz with
  | true =>
    rw [if_pos rfl]
    have hxe : 1 ≤ (if d.x + 1 - l < 1 then d.x - 1 + l else d.x + 1 - l) ∧
        (if d.x + 1 - l < 1 then d.x - 1 + l else d.x + 1 - l) ≤ 10 ∧
        max d.x (if d.x + 1 - l < 1 then d.x - 1 + l else d.x + 1 - l) -
          min d.x (if d.x + 1 - l < 1 then d.x - 1 + l else d.x + 1 - l) + 1 = l := by
      by_cases hf : d.x + 1 - l < 1
      · rw [if_pos hf]
        refine ⟨by omega, by omega, by omega⟩
      · rw [if_neg hf]
        refine ⟨by omega, by omega, by omega⟩
    refine ⟨?_, ?_, ⟨(d.x, d.y),
      ((if d.x + 1 - l < 1 then d.x - 1 + l else d.x + 1 - l), d.y), Or.inr rfl, rfl⟩⟩
    · rw [shipLength_shipOfCorners]
      have hcl : computedLen (d.x, d.y)
          ((if d.x + 1 - l < 1 then d.x - 1 + l else d.x + 1 - l), d.y) = l := by
        unfold computedLen
        dsimp only
        by_cases hq : d.x = (if d.x + 1 - l < 1 then d.x - 1 + l else d.x + 1 - l)
        · rw [if_pos hq]
          omega
        · rw [if_neg hq]
          omega
      rw [hcl, if_neg (by omega)]
    · intro c hc
      rw [mem_cells] at hc
      dsimp only at hc
      unfold cellInBounds
      by_cases hq : d.x = (if d.x + 1 - l < 1 then d.x - 1 + l else d.x + 1 - l)
      · rw [if_pos hq] at hc
        omega
      · rw [if_neg hq] at hc
        omega
  | false =>
    rw [if_neg Bool.false_ne_true]
    have hye : 1 ≤ (if (10 : ℤ) < d.y - 1 + l then d.y + 1 - l else d.y - 1 + l) ∧
        (if (10 : ℤ) < d.y - 1 + l then d.y + 1 - l else d.y - 1 + l) ≤ 10 ∧
        max d.y (if (10 : ℤ) < d.y - 1 + l then d.y + 1 - l else d.y - 1 + l) -
          min d.y (if (10 : ℤ) < d.y - 1 + l then d.y + 1 - l else d.y - 1 + l) + 1 = l := by
      by_cases hf : (10 : ℤ) < d.y - 1 + l
      · rw [if_pos hf]
        refine ⟨by omega, by omega, by omega⟩
      · rw [if_neg hf]
        refine ⟨by omega, by omega, by omega⟩
    refine ⟨?_, ?_, ⟨(d.x, d.y),
      (d.x, (if (10 : ℤ) < d.y - 1 + l then d.y + 1 - l else d.y - 1 + l)), Or.inl rfl, rfl⟩⟩
    · rw [shipLength_shipOfCorners]
      have hcl : computedLen (d.x, d.y)
          (d.x, (if (10 : ℤ) < d.y - 1 + l then d.y + 1 - l else d.y - 1 + l)) = l := by
        unfold computedLen
        dsimp only
        rw [if_pos rfl]
        omega
      rw [hcl, if_neg (by omega)]
    · intro c hc
      rw [mem_cells] at hc
      dsimp only at hc
      unfold cellInBounds
      rw [if_pos rfl] at hc
      omega

theorem retryLoop_succ (bs : ℤ × ℤ) (l : ℤ) (ships : List Ship) (f : ℕ → Draw)
    (ship : Ship) (ctr n : ℕ) :
    retryLoop bs l ships f ship ctr (n + 1) =
      if ships.any (fun other => ship.is_near_ship other) then
        retryLoop bs l ships f (build_ship bs l (f ctr)) (ctr + 1) n
      else retryLoop bs l ships f ship ctr n := rfl

theorem retryLoop_fst_cases (bs : ℤ × ℤ) (l : ℤ) (ships : List Ship) (f : ℕ → Draw)
    (ship : Ship) (ctr n : ℕ) :
    (retryLoop bs l ships f ship ctr n).1 = ship ∨
      ∃ k, (retryLoop bs l ships f ship ctr n).1 = build_ship bs l (f k) := by
  induction n generalizing ship ctr with
  | zero => exact Or.inl rfl
  | succ n ih =>
    rw [retryLoop_succ]
    by_cases hnear : ships.any (fun other => ship.is_near_ship other) = true
    · rw [if_pos hnear]
      rcases ih (build_ship bs l (f ctr)) (ctr + 1) with h | h
      · exact Or.inr ⟨ctr, h⟩
      · exact Or.inr h
    · rw [if_neg hnear]
      exact ih ship ctr

theorem generateStep_shape (bs : ℤ × ℤ) (f : ℕ → Draw) (l : ℤ) (acc : List Ship × ℕ) :
    ∃ (sh : Ship) (c2 : ℕ), generateStep bs f l acc = (acc.1 ++ [sh], c2) ∧
      ∃ k, sh = build_ship bs l (f k) := by
  unfold generateStep
  dsimp only
  by_cases he : acc.1.isEmpty
  · rw [if_pos he]
    exact ⟨build_ship bs l (f acc.2), acc.2 + 1, rfl, acc.2, rfl⟩
  · rw [if_neg he]
    rcases retryLoop_fst_cases bs l acc.1 f (build_ship bs l (f acc.2)) (acc.2 + 1) 999
      with h | ⟨k, h⟩
    · exact ⟨_, _, rfl, acc.2, h⟩
    · exact ⟨_, _, rfl, k, h⟩

theorem buildCount_one (bs : ℤ × ℤ) (f : ℕ → Draw) (l : ℤ) (acc : List Ship × ℕ) :
    buildCount bs f l 1 acc = generateStep bs f l acc := rfl

theorem generate_ships_default_shape (f : ℕ → Draw) :
    ∃ t1 t2 t3 t4 t5 : Ship,
      generate_ships (10, 10) defaultShipsPerLength f = [t1, t2, t3, t4, t5] ∧
      (∃ k, t1 = build_ship (10, 10) 1 (f k)) ∧
      (∃ k, t2 = build_ship (10, 10) 2 (f k)) ∧
      (∃ k, t3 = build_ship (10, 10) 3 (f k)) ∧
      (∃ k, t4 = build_ship (10, 10) 4 (f k)) ∧
      (∃ k, t5 = build_ship (10, 10) 5 (f k)) := by
  obtain ⟨t1, c1, e1, hb1⟩ := generateStep_shape (10, 10) f 1 ([], 0)
  obtain ⟨t2, c2, e2, hb2⟩ := generateStep_shape (10, 10) f 2 ([] ++ [t1], c1)
  obtain ⟨t3, c3, e3, hb3⟩ := generateStep_shape (10, 10) f 3 (([] ++ [t1]) ++ [t2], c2)
  obtain ⟨t4, c4, e4, hb4⟩ :=
    generateStep_shape (10, 10) f 4 ((([] ++ [t1]) ++ [t2]) ++ [t3], c3)
  obtain ⟨t5, c5, e5, hb5⟩ :=
    generateStep_shape (10, 10) f 5 (((([] ++ [t1]) ++ [t2]) ++ [t3]) ++ [t4], c4)
  refine ⟨t1, t2, t3, t4, t5, ?_, hb1, hb2, hb3, hb4, hb5⟩
  unfold generate_ships defaultShipsPerLength
  simp only [List.foldl]
  rw [buildCount_one, buildCount_one, buildCount_one, buildCount_one, buildCount_one]
  rw [e1, e2, e3, e4, e5]
  simp

theorem line_cells_box {s e : Cell} (hax : s.1 = e.1 ∨ s.2 = e.2) (c : Cell) :
    c ∈ (shipOfCorners s e).cellsList ↔
      (min s.1 e.1 ≤ c.1 ∧ c.1 ≤ max s.1 e.1 ∧
       min s.2 e.2 ≤ c.2 ∧ c.2 ≤ max s.2 e.2) := by
  rw [mem_cells]
  by_cases h : s.1 = e.1
  · rw [if_pos h]
    constructor
    · rintro ⟨h1, h2, h3⟩
      omega
    · rintro ⟨h1, h2, h3, h4⟩
      omega
  · rw [if_neg h]
    rcases hax with h1 | h1
    · exact absurd h1 h
    · constructor
      · rintro ⟨h2, h3, h4⟩
        omega
      · rintro ⟨h2, h3, h4, h5⟩
        omega

theorem is_near_ship_iff_boxes {s1 e1 s2 e2 : Cell} (hax2 : s2.1 = e2.1 ∨ s2.2 = e2.2) :
    (shipOfCorners s1 e1).is_near_ship (shipOfCorners s2 e2) = true ↔
      (min s1.1 e1.1 - 1 ≤ max s2.1 e2.1 ∧ min s2.1 e2.1 ≤ max s1.1 e1.1 + 1 ∧
       min s1.2 e1.2 - 1 ≤ max s2.2 e2.2 ∧ min s2.2 e2.2 ≤ max s1.2 e1.2 + 1) := by
  unfold Ship.is_near_ship
  rw [List.any_eq_true]
  constructor
  · rintro ⟨c, hcmem, hnear⟩
    rw [line_cells_box hax2] at hcmem
    unfold Ship.is_near_cell at hnear
    rw [decide_eq_true_eq, shipOfCorners_x_start, shipOfCorners_x_end,
      shipOfCorners_y_start, shipOfCorners_y_end] at hnear
    omega
  · rintro ⟨h1, h2, h3, h4⟩
    refine ⟨(max (min s2.1 e2.1) (min s1.1 e1.1 - 1),
             max (min s2.2 e2.2) (min s1.2 e1.2 - 1)), ?_, ?_⟩
    · rw [line_cells_box hax2]
      dsimp only
      omega
    · unfold Ship.is_near_cell
      rw [decide_eq_true_eq, shipOfCorners_x_start, shipOfCorners_x_end,
        shipOfCorners_y_start, shipOfCorners_y_end]
      dsimp only
      omega

theorem is_near_ship_symm {a b : Ship} (ha : lineShip a) (hb : lineShip b) :
    a.is_near_ship b = b.is_near_ship a := by
  obtain ⟨sa, ea, haxa, rfl⟩ := ha
  obtain ⟨sb, eb, haxb, rfl⟩ := hb
  rcases Bool.eq_false_or_eq_true
      ((shipOfCorners sa ea).is_near_ship (shipOfCorners sb eb)) with h | h
  · rw [h]
    have hc := (is_near_ship_iff_boxes haxb).mp h
    exact ((is_near_ship_iff_boxes haxa).mpr (by omega)).symm
  · rw [h]
    rcases Bool.eq_false_or_eq_true
        ((shipOfCorners sb eb).is_near_ship (shipOfCorners sa ea)) with h2 | h2
    · have hc := (is_near_ship_iff_boxes haxa).mp h2
      have h3 : (shipOfCorners sa ea).is_near_ship (shipOfCorners sb eb) = true :=
        (is_near_ship_iff_boxes haxb).mpr (by omega)
      rw [h3] at h
      exact Bool.noConfusion h
    · rw [h2]

theorem generate_ships_default_members (f : ℕ → Draw) (hf : validStream (10, 10) f) :
    ∃ t1 t2 t3 t4 t5 : Ship,
      generate_ships (10, 10) defaultShipsPerLength f = [t1, t2, t3, t4, t5] ∧
      (generate_ships (10, 10) defaultShipsPerLength f).map Ship.length =
        [LengthResult.ok 1, LengthResult.ok 2, LengthResult.ok 3,
         LengthResult.ok 4, LengthResult.ok 5] ∧
      ∀ sh ∈ generate_ships (10, 10) defaultShipsPerLength f,
        (∀ c ∈ sh.cellsList, cellInBounds c) ∧ lineShip sh := by
  obtain ⟨t1, t2, t3, t4, t5, hL, ⟨k1, hk1⟩, ⟨k2, hk2⟩, ⟨k3, hk3⟩, ⟨k4, hk4⟩, ⟨k5, hk5⟩⟩ :=
    generate_ships_default_shape f
  have hs1 := build_ship_spec 1 (f k1) (by omega) (by omega)
    (hf k1).1 (hf k1).2.1 (hf k1).2.2.1 (hf k1).2.2.2
  have hs2 := build_ship_spec 2 (f k2) (by omega) (by omega)
    (hf k2).1 (hf k2).2.1 (hf k2).2.2.1 (hf k2).2.2.2
  have hs3 := build_ship_spec 3 (f k3) (by omega) (by omega)
    (hf k3).1 (hf k3).2.1 (hf k3).2.2.1 (hf k3).2.2.2
  have hs4 := build_ship_spec 4 (f k4) (by omega) (by omega)
    (hf k4).1 (hf k4).2.1 (hf k4).2.2.1 (hf k4).2.2.2
  have hs5 := build_ship_spec 5 (f k5) (by omega) (by omega)
    (hf k5).1 (hf k5).2.1 (hf k5).2.2.1 (hf k5).2.2.2
  rw [← hk1] at hs1
  rw [← hk2] at hs2
  rw [← hk3] at hs3
  rw [← hk4] at hs4
  rw [← hk5] at hs5
  refine ⟨t1, t2, t3, t4, t5, hL, ?_, ?_⟩
  · rw [hL]
    simp only [List.map]
    rw [hs1.1, hs2.1, hs3.1, hs4.1, hs5.1]
  · intro sh hsh
    rw [hL] at hsh
    simp only [List.mem_cons, List.not_mem_nil, or_false] at hsh
    rcases hsh with rfl | rfl | rfl | rfl | rfl
    · exact ⟨hs1.2.1, hs1.2.2⟩
    · exact ⟨hs2.2.1, hs2.2.2⟩
    · exact ⟨hs3.2.1, hs3.2.2⟩
    · exact ⟨hs4.2.1, hs4.2.2⟩
    · exact ⟨hs5.2.1, hs5.2.2⟩

/-- C3 counterexample: with the draw stream that always proposes anchor
(1,1) building horizontally, every rebuild inside the 999-iteration retry
loop reproduces the same candidate, the ceiling is exhausted and the
candidate is appended anyway: the first two generated ships overlap at
(1,1), so the run is not pairwise non-near. -/
theorem c3_counterexample :
    (generate_ships (10, 10) defaultShipsPerLength constStream).length = 5 ∧
    ((generate_ships (10, 10) defaultShipsPerLength constStream).getD 0 dummyShip).is_near_ship
      ((generate_ships (10, 10) defaultShipsPerLength constStream).getD 1 dummyShip) =
        true := by decide

/-- C3 (amended): every default-configuration run returns exactly 5 ships of
lengths 1,2,3,4,5 in order, all in bounds; and the run is pairwise non-near
provided each accepted ship was not near any previously accepted ship (the
999-iteration retry ceiling may be exhausted, in which case the last
candidate is accepted even though it is near an earlier ship). -/
theorem generate_ships_default_amended :
    (∀ f : ℕ → Draw, validStream (10, 10) f →
      (generate_ships (10, 10) defaultShipsPerLength f).map Ship.length =
        [LengthResult.ok 1, LengthResult.ok 2, LengthResult.ok 3,
         LengthResult.ok 4, LengthResult.ok 5] ∧
      ∀ sh ∈ generate_ships (10, 10) defaultShipsPerLength f,
        ∀ c ∈ sh.cellsList, cellInBounds c) ∧
    (∀ f : ℕ → Draw, validStream (10, 10) f →
      List.Pairwise (fun a b => b.is_near_ship a = false)
        (generate_ships (10, 10) defaultShipsPerLength f) →
      List.Pairwise (fun a b => a.is_near_ship b = false ∧ b.is_near_ship a = false)
        (generate_ships (10, 10) defaultShipsPerLength f)) := by
  constructor
  · intro f hf
    obtain ⟨t1, t2, t3, t4, t5, hL, hmap, hmem⟩ := generate_ships_default_members f hf
    exact ⟨hmap, fun sh hsh => (hmem sh hsh).1⟩
  · intro f hf hpw
    obtain ⟨t1, t2, t3, t4, t5, hL, hmap, hmem⟩ := generate_ships_default_members f hf
    refine hpw.imp_of_mem ?_
    intro a b hamem hbmem hR
    have hsymm := is_near_ship_symm (hmem a hamem).2 (hmem b hbmem).2
    exact ⟨hsymm.trans hR, hR⟩

/-- C3 witness: the well-separated draw stream places the five ships on
rows 1, 3, 5, 7, 9; the lengths come out as 1..5 and the first two ships
are not near each other. -/
theorem generate_ships_default_amended_witness :
    (generate_ships (10, 10) defaultShipsPerLength goodStream).map Ship.length =
      [LengthResult.ok 1, LengthResult.ok 2, LengthResult.ok 3,
       LengthResult.ok 4, LengthResult.ok 5] ∧
    ((generate_ships (10, 10) defaultShipsPerLength goodStream).getD 0 dummyShip).is_near_ship
      ((generate_ships (10, 10) defaultShipsPerLength goodStream).getD 1 dummyShip) =
        false := by
  have hvalid : validStream (10, 10) goodStream := by
    intro n
    unfold goodStream
    match n with
    | 0 => decide
    | 1 => decide
    | 2 => decide
    | 3 => decide
    | 4 => decide
    | n + 5 =>
      rw [List.getD_eq_default]
      · decide
      · simp
  have h1 := (generate_ships_default_amended.1 goodStream hvalid).1
  have h2 := generate_ships_default_amended.2 goodStream hvalid (by decide)
  refine ⟨h1, ?_⟩
  obtain ⟨t1, t2, t3, t4, t5, hL, _, _, _, _, _⟩ := generate_ships_default_shape goodStream
  rw [hL] at h2 ⊢
  have hS := (List.pairwise_cons.mp h2).1 t2 (by simp)
  simpa using hS.1

/-- C2 witness: a fresh RandomPlayer draw of (1,1) is returned and was not
in the empty tracker. -/
theorem select_target_fresh_except_fallback_witness :
    ((1 : ℤ), (1 : ℤ)) ∉ (RandomState.mk ∅).tracker ∧
    (((2 : ℤ), (2 : ℤ)) ∉ initAutoState.tracker ∨
      ((2 : ℤ), (2 : ℤ)) = trackFallbackCell initAutoState) :=
  ⟨select_target_fresh_except_fallback.1 ⟨∅⟩ [(1, 1)] (1, 1)
      ⟨insert (1, 1) ∅⟩ (by decide),
   select_target_fresh_except_fallback.2 initAutoState [(2, 2)] 0 (2, 2)
      (addMove initAutoState (2, 2)) (by decide)⟩

end Battleship
